import Mathlib

/-!
# Verification of the `measureme` run store and plot protocol

A shallow embedding of the measurement database (`sweep/db.py`) and the
out-of-process plotting coordinator (`sweep/plot.py`), with theorems settling
the specification claims about them.

Conventions of the embedding:

* File contents are `List Char` (the run store writes and reads text files;
  byte blobs are carried through opaquely as character lists).
* The Python `csv` module's writer and reader (dialect `excel` with a custom
  delimiter, quote character `"`, `QUOTE_MINIMAL`, `doublequote=True`,
  line terminator `"\r\n"`) are modelled character by character below.
* `gzip` compression/decompression are abstract function parameters; the code
  under verification never relies on what they do, only checks the round trip.
* The `md5` whole-file digest comparison of `_files_equal` is idealized as
  content comparison (collision-freeness).
-/

/-! ## The csv writer model (Python `csv.writer`, QUOTE_MINIMAL) -/

/-- A character is special for QUOTE_MINIMAL when it is the delimiter, the
quote character, or part of the line terminator `"\r\n"`. -/
def specialChar (delim c : Char) : Bool :=
  c == delim || c == '"' || c == '\r' || c == '\n'

/-- A field must be quoted when it contains a special character. -/
def needsQuote (delim : Char) (f : List Char) : Bool :=
  f.any (specialChar delim)

/-- Quote-doubling (`doublequote=True`): every `"` becomes `""`. -/
def escQ : List Char → List Char
  | [] => []
  | c :: cs => if c = '"' then '"' :: '"' :: escQ cs else c :: escQ cs

/-- A single encoded field, quoted exactly when QUOTE_MINIMAL requires it. -/
def encodeField (delim : Char) (f : List Char) : List Char :=
  if needsQuote delim f then '"' :: (escQ f ++ ['"']) else f

/-- Join encoded fields with the delimiter. -/
def joinDelim (delim : Char) : List (List Char) → List Char
  | [] => []
  | [f] => f
  | f :: g :: fs => f ++ delim :: joinDelim delim (g :: fs)

/-- One encoded record, without the line terminator. A row consisting of a
single empty field is written as a quoted empty field (so that the line is
not blank), exactly as CPython's `csv` writer does. -/
def encodeRow (delim : Char) (r : List (List Char)) : List Char :=
  if r = [[]] then ['"', '"'] else joinDelim delim (r.map (encodeField delim))

/-- A full record as written by `csv.writer.writerow`: the encoded row plus
the default line terminator `"\r\n"`. -/
def writeRow (delim : Char) (r : List (List Char)) : List Char :=
  encodeRow delim r ++ ['\r', '\n']

/-- The byte content produced by writing all `rows` in order. -/
def encodeFile (delim : Char) (rows : List (List (List Char))) : List Char :=
  (rows.map (writeRow delim)).flatten

/-! ## Universal-newline translation

`gzip.open(path, 'rt')` wraps the stream in a text layer with
`newline=None`: on reading, `"\r\n"` and a lone `"\r"` are both translated
to `"\n"`. -/

/-- Universal-newline translation applied by the text-mode read layer. -/
def unlTranslate : List Char → List Char
  | [] => []
  | [c] => if c = '\r' then ['\n'] else [c]
  | c :: d :: cs =>
    if c = '\r' then
      if d = '\n' then '\n' :: unlTranslate cs
      else '\n' :: unlTranslate (d :: cs)
    else c :: unlTranslate (d :: cs)

/-! ## The csv reader model (Python `csv.reader`, non-strict)

The reader is a state machine over the translated character stream, with
states: start of record, start of field (after a delimiter), inside an
unquoted field, inside a quoted field, and just after a quote inside a
quoted field.  A blank line yields the empty record, as in Python. -/

mutual

/-- Reader state: at the start of a record (no field begun). -/
def runStartRecord (delim : Char) : List Char → List (List (List Char))
  | [] => []
  | c :: cs =>
    if c = '\n' then [] :: runStartRecord delim cs
    else if c = delim then runStartField delim [[]] cs
    else if c = '"' then runInQuoted delim [] [] cs
    else runInField delim [] [c] cs

/-- Reader state: just after a delimiter, with the fields of `record`
already complete. -/
def runStartField (delim : Char) (record : List (List Char)) :
    List Char → List (List (List Char))
  | [] => [record ++ [[]]]
  | c :: cs =>
    if c = '\n' then (record ++ [[]]) :: runStartRecord delim cs
    else if c = delim then runStartField delim (record ++ [[]]) cs
    else if c = '"' then runInQuoted delim record [] cs
    else runInField delim record [c] cs

/-- Reader state: inside an unquoted field whose characters so far are
`field`. -/
def runInField (delim : Char) (record : List (List Char)) (field : List Char) :
    List Char → List (List (List Char))
  | [] => [record ++ [field]]
  | c :: cs =>
    if c = '\n' then (record ++ [field]) :: runStartRecord delim cs
    else if c = delim then runStartField delim (record ++ [field]) cs
    else runInField delim record (field ++ [c]) cs

/-- Reader state: inside a quoted field. The delimiter and newlines are
ordinary data here. -/
def runInQuoted (delim : Char) (record : List (List Char)) (field : List Char) :
    List Char → List (List (List Char))
  | [] => [record ++ [field]]
  | c :: cs =>
    if c = '"' then runQuoteInQuoted delim record field cs
    else runInQuoted delim record (field ++ [c]) cs

/-- Reader state: just saw a quote inside a quoted field. A second quote is
a literal quote; a delimiter or newline ends the field; any other character
continues the field unquoted (non-strict mode). -/
def runQuoteInQuoted (delim : Char) (record : List (List Char)) (field : List Char) :
    List Char → List (List (List Char))
  | [] => [record ++ [field]]
  | c :: cs =>
    if c = '"' then runInQuoted delim record (field ++ ['"']) cs
    else if c = '\n' then (record ++ [field]) :: runStartRecord delim cs
    else if c = delim then runStartField delim (record ++ [field]) cs
    else runInField delim record (field ++ [c]) cs

end

/-- Parse a whole character stream into records, as `csv.reader` does when
iterated to exhaustion. -/
def csvParse (delim : Char) (input : List Char) : List (List (List Char)) :=
  runStartRecord delim input

/-! ## The run store (`sweep/db.py`)

The run directory is a finite map from file names to contents; `gzip`
compression and decompression are abstract function parameters. -/

/-- Error conditions of the run store and plot controller, as the spec's
taxonomy names them. `Writer.__init__` raises `RuntimeError` when ids are
exhausted (`resourceExhausted`); `Writer.close` raises `RuntimeError` on a
digest mismatch (`integrityError`); `Writer.add_blob` raises `ValueError`
on a reserved name and `Plotter.plot` raises `ValueError` on a malformed
specification (`invalidArgument`); `Reader` raises `FileNotFoundError` on a
missing file (`notFound`). -/
inductive Err where
  | integrityError
  | resourceExhausted
  | invalidArgument
  | notFound
deriving DecidableEq, Repr

/-- A value passed to `Writer.add_point`: a Python scalar, here an integer
or a string. `csv.writer` stringifies fields before encoding them. -/
inductive Val where
  | int (i : Int)
  | str (s : List Char)
deriving DecidableEq, Repr

/-- The text `csv.writer` produces for a value (Python `str()`). -/
def Val.pyStr : Val → List Char
  | .int i => (toString i).data
  | .str s => s

/-- The contents of one run directory: file name to file content. -/
def RunFS : Type := String → Option (List Char)

/-- The empty run directory, just after `os.mkdir`. -/
def fsEmpty : RunFS := fun _ => none

/-- Writing (creating or overwriting) a file. -/
def fsSet (fs : RunFS) (name : String) (content : List Char) : RunFS :=
  fun m => if m = name then some content else fs m

/-- `os.remove`. -/
def fsRemove (fs : RunFS) (name : String) : RunFS :=
  fun m => if m = name then none else fs m

/-- The writer's in-memory handle: the run directory contents and the
current `datapath` attribute. The fsync cadence (`fsync_every`) only
controls durability against crashes and is not part of the content model. -/
structure WriterSt where
  fs : RunFS
  datapath : String

/-- A fresh `Writer` after `__init__`: an empty `data.tsv` is created and
`datapath` points at it. -/
def writerNew : WriterSt :=
  { fs := fsSet fsEmpty "data.tsv" [], datapath := "data.tsv" }

/-- `Writer.add_points`: encode each row (values stringified) with the
tab-delimited csv writer and append to the open `data.tsv` stream. -/
def writerAddPoints (w : WriterSt) (points : List (List Val)) : WriterSt :=
  { w with
    fs := fsSet w.fs "data.tsv"
      (((w.fs "data.tsv").getD []) ++ encodeFile '\t' (points.map (·.map Val.pyStr))) }

/-- `Writer.add_point` delegates to `add_points` with a one-row batch. -/
def writerAddPoint (w : WriterSt) (point : List Val) : WriterSt :=
  writerAddPoints w [point]

/-- `_files_equal`: whole-file md5 of the uncompressed file against
whole-file md5 of the gzip-decompressed compressed file. Digest equality is
idealized as content equality. -/
def files_equal (decompress : List Char → List Char)
    (uncompressed compressed : List Char) : Bool :=
  uncompressed == decompress compressed

/-- `Writer.close`: dump metadata to `metadata.json`, flush and fsync the
row file, copy it through gzip to `data.tsv.gz`, verify with `_files_equal`
and raise `RuntimeError` (an `IntegrityError` condition) on mismatch,
leaving both files; on success delete the uncompressed file (deletion
failures are swallowed) and repoint `datapath` at the compressed file.
Returns the resulting directory contents and either the error or the new
`datapath`. -/
def writerClose (compress decompress : List Char → List Char)
    (w : WriterSt) (metaContent : List Char) : RunFS × Except Err String :=
  let fs1 := fsSet w.fs "metadata.json" metaContent
  let c := (fs1 w.datapath).getD []
  let fs2 := fsSet fs1 (w.datapath ++ ".gz") (compress c)
  if files_equal decompress c (compress c) then
    (fsRemove fs2 w.datapath, Except.ok (w.datapath ++ ".gz"))
  else
    (fs2, Except.error Err.integrityError)

/-- `Reader.__init__` followed by `all_data()`: open `data.tsv.gz` through
the gzip text layer (universal newlines) and `metadata.json`, then decode
every row with `csv.reader(..., delimiter='\t')`. `notFound` when either
file is missing. -/
def readerAllData (decompress : List Char → List Char) (fs : RunFS) :
    Except Err (List (List (List Char))) :=
  match fs "data.tsv.gz", fs "metadata.json" with
  | some gz, some _ => Except.ok (csvParse '\t' (unlTranslate (decompress gz)))
  | _, _ => Except.error Err.notFound

/-- `Reader.__init__` followed by iterating the reader (`__iter__`): the
same stream decoded by `csv.reader(self._data)` with the DEFAULT comma
delimiter — the source omits `delimiter='\t'` here. -/
def readerIterRows (decompress : List Char → List Char) (fs : RunFS) :
    Except Err (List (List (List Char))) :=
  match fs "data.tsv.gz", fs "metadata.json" with
  | some gz, some _ => Except.ok (csvParse ',' (unlTranslate (decompress gz)))
  | _, _ => Except.error Err.notFound

/-- `Writer.add_blob`: reject the three reserved file names with
`ValueError` (touching nothing), otherwise write the bytes under `name` in
the run directory. Returns the directory contents after the call and either
the error or the blob's path (relative to the run directory). -/
def writerAddBlob (w : WriterSt) (name : String) (data : List Char) :
    RunFS × Except Err String :=
  if name = "data.tsv" ∨ name = "data.tsv.gz" ∨ name = "metadata.json" then
    (w.fs, Except.error Err.invalidArgument)
  else
    (fsSet w.fs name data, Except.ok name)

/-! ## Run id allocation (`Writer.__init__`) -/

/-- The id-scan loop of `Writer.__init__`: starting at `id`, try `mkdir`
on each integer name, advancing past the ones that already exist
(`FileExistsError`), for at most `budget` attempts (the loop condition
`id <= max_id` gives `max_id + 1` attempts from 0). `taken` is the set of
subdirectory names that already exist. -/
def pickIdLoop (taken : Nat → Bool) : Nat → Nat → Option Nat
  | _, 0 => none
  | id, budget + 1 => if taken id then pickIdLoop taken (id + 1) budget else some id

/-- Run id chosen by `Writer.__init__` with bound `maxId`, or `none` when
the scan exhausts every id `≤ maxId` and the constructor raises
`RuntimeError` (the `ResourceExhausted` condition). -/
def pickId (taken : Nat → Bool) (maxId : Nat) : Except Err Nat :=
  match pickIdLoop taken 0 (maxId + 1) with
  | some i => Except.ok i
  | none => Except.error Err.resourceExhausted

/-- Directory state after a writer claims `id` (its `os.mkdir` succeeded). -/
def markTaken (taken : Nat → Bool) (id : Nat) : Nat → Bool :=
  fun n => n == id || taken n

/-- `N` writers created in sequence against the same base directory: each
allocates an id (or fails), and a successful allocation makes that id
taken for the following writers. On a failed allocation the constructor
raises, so no further writers are created. -/
def allocSeq (taken : Nat → Bool) (maxId : Nat) : Nat → List (Except Err Nat)
  | 0 => []
  | n + 1 =>
    match pickId taken maxId with
    | Except.error e => [Except.error e]
    | Except.ok i => Except.ok i :: allocSeq (markTaken taken i) maxId n

/-! ## The plot protocol (`sweep/plot.py`) -/

/-- One entry of an `x`/`y`/`z` argument to `Plotter.plot`: a plain column
name or a parameter object carrying a `full_name`. -/
inductive PlotItem where
  | str (s : String)
  | param (fullName : String)
deriving DecidableEq, Repr

/-- A whole `x`, `y` or `z` argument to `Plotter.plot`: `None`, a single
item, or a list of items. -/
inductive PlotArg where
  | noneArg
  | item (i : PlotItem)
  | list (l : List PlotItem)
deriving DecidableEq, Repr

/-- The inner `n` of `to_names`: a string is itself, otherwise take the
parameter's `full_name`. -/
def itemName : PlotItem → String
  | .str s => s
  | .param n => n

/-- `to_names` inside `Plotter.plot`. -/
def to_names : PlotArg → List String
  | .noneArg => []
  | .item i => [itemName i]
  | .list l => l.map itemName

/-- A validated plot specification: x names, y names, z names. -/
abbrev PlotSpec : Type := List String × List String × List String

/-- `Plotter.plot`: convert the arguments to name lists, validate, and on
success append the specification to the registered list. The three checks
are, in source order: multiple xs AND multiple ys with mismatched counts;
one z with more than one x or y; more than one z. -/
def plotterPlot (plots : List PlotSpec) (x y z : PlotArg) :
    Except Err (List PlotSpec) :=
  let xs := to_names x
  let ys := to_names y
  let zs := to_names z
  if xs.length > 1 ∧ ys.length > 1 ∧ xs.length ≠ ys.length then
    Except.error Err.invalidArgument
  else if zs.length = 1 ∧ (xs.length > 1 ∨ ys.length > 1) then
    Except.error Err.invalidArgument
  else if zs.length > 1 then
    Except.error Err.invalidArgument
  else
    Except.ok (plots ++ [(xs, ys, zs)])

/-- A message on the controller-to-renderer pipe (the `_Action` enum with
its payload). -/
inductive PMsg where
  | start (plots : List PlotSpec)
  | stop
  | sendImage
  | addPoint (data : List (String × Val))
deriving DecidableEq, Repr

/-- Controller-side state of a `Plotter`: registered plot specifications,
the column names set by `set_cols`, whether the worker process has been
spawned, and the messages sent over the pipe in order. -/
structure PlotterSt where
  plots : List PlotSpec
  cols : List String
  procSpawned : Bool
  sent : List PMsg

/-- A `Plotter()` with no specifications registered. -/
def plotterInit : PlotterSt :=
  { plots := [], cols := [], procSpawned := false, sent := [] }

/-- `Plotter.__enter__`: with zero registered plots, do nothing; otherwise
spawn the worker process and send `START` with all specifications. -/
def plotterEnter (p : PlotterSt) : PlotterSt :=
  if p.plots.length = 0 then p
  else { p with procSpawned := true, sent := p.sent ++ [PMsg.start p.plots] }

/-- `Plotter.__exit__`: with zero registered plots, do nothing; otherwise
send `STOP` and join the worker. -/
def plotterExit (p : PlotterSt) : PlotterSt :=
  if p.plots.length = 0 then p
  else { p with sent := p.sent ++ [PMsg.stop] }

/-- `Plotter._format_data_map`: zip the configured column names with the
row values (stopping at the shorter). -/
def formatDataMap (cols : List String) (data : List Val) : List (String × Val) :=
  cols.zip data

/-- `Plotter.add_point`: with zero registered plots, do nothing; otherwise
send an `ADD_POINT` message with the name-keyed point. -/
def plotterAddPoint (p : PlotterSt) (data : List Val) : PlotterSt :=
  if p.plots.length = 0 then p
  else { p with sent := p.sent ++ [PMsg.addPoint (formatDataMap p.cols data)] }

/-- `Plotter.send_image`: with zero registered plots, return `None` without
sending anything; otherwise send `SEND_IMAGE` and block on the reply buffer
(the reply is represented by `some ()`). -/
def plotterSendImage (p : PlotterSt) : PlotterSt × Option Unit :=
  if p.plots.length = 0 then (p, none)
  else ({ p with sent := p.sent ++ [PMsg.sendImage] }, some ())

/-! ## The renderer (`_PlotProc` and `_plot_loop`) -/

/-- One buffered line series: its x and y column names and the coordinate
buffers (`line.get_xdata()`/`get_ydata()`). -/
structure LineS where
  x : String
  y : String
  xd : List Val
  yd : List Val
deriving DecidableEq, Repr

/-- One buffered mesh series: its x, y and z column names and the
accumulated coordinate triples. -/
structure MeshS where
  x : String
  y : String
  z : String
  xd : List Val
  yd : List Val
  zd : List Val
deriving DecidableEq, Repr

/-- Renderer figure state: the line and mesh series of all subplots.
Axis rescaling and redrawing change only presentation, not these buffers,
so they are not part of the state. -/
structure ProcSt where
  lines : List LineS
  meshes : List MeshS
deriving DecidableEq, Repr

/-- A point as received by the renderer: column name to value. -/
abbrev RPoint : Type := List (String × Val)

/-- Dictionary membership/lookup on a point (`x in point` / `point[x]`). -/
def pLookup (pt : RPoint) (k : String) : Option Val :=
  (pt.find? (fun kv => kv.1 == k)).map (·.2)

/-- The line series `_PlotProc.start` creates for one plot specification:
with no z and a single x, one line per y against that x; with no z and
multiple xs, one line per zipped (x, y) pair; with a z, none. -/
def specLines (s : PlotSpec) : List LineS :=
  match s with
  | (xs, ys, zs) =>
    if zs.length = 0 then
      if xs.length = 1 then ys.map (fun y => ⟨xs.headD "", y, [], []⟩)
      else (xs.zip ys).map (fun xy => ⟨xy.1, xy.2, [], []⟩)
    else []

/-- The mesh series `_PlotProc.start` creates for one plot specification:
one mesh on (xs[0], ys[0], zs[0]) when a z is present. (The source indexes
`xs[0]` unconditionally; specs with an empty x or y list and a z would
crash there and are modelled with a default name.) -/
def specMeshes (s : PlotSpec) : List MeshS :=
  match s with
  | (xs, ys, zs) =>
    if zs.length = 0 then []
    else [⟨xs.headD "", ys.headD "", zs.headD "", [], [], []⟩]

/-- `_PlotProc.start`: build the figure's empty line and mesh series from
the plot specifications. -/
def procStart (plots : List PlotSpec) : ProcSt :=
  { lines := (plots.map specLines).flatten,
    meshes := (plots.map specMeshes).flatten }

/-- Processing of one point by `_PlotProc.add_points`: every line series
whose two column names are both present in the point appends the point's
values to its buffers; a series with a missing column is skipped (the
`continue`); mesh series likewise with three columns. The subsequent
interpolation, axis rescale and redraw do not change the buffers. -/
def procAddPoint (st : ProcSt) (pt : RPoint) : ProcSt :=
  { lines := st.lines.map (fun l =>
      match pLookup pt l.x, pLookup pt l.y with
      | some vx, some vy => { l with xd := l.xd ++ [vx], yd := l.yd ++ [vy] }
      | _, _ => l),
    meshes := st.meshes.map (fun m =>
      match pLookup pt m.x, pLookup pt m.y, pLookup pt m.z with
      | some vx, some vy, some vz =>
          { m with xd := m.xd ++ [vx], yd := m.yd ++ [vy], zd := m.zd ++ [vz] }
      | _, _, _ => m) }

/-- `_PlotProc.add_points` over a batch of points, in order. -/
def procAddPoints (st : ProcSt) (pts : List RPoint) : ProcSt :=
  pts.foldl procAddPoint st

/-- A snapshot image (`_PlotProc.image`): the PNG serialization of the
figure, represented by the figure state it depicts. -/
structure Image where
  fig : ProcSt
deriving DecidableEq, Repr

/-- `_PlotProc.image`: serialize the current figure. -/
def procImage (st : ProcSt) : Image := ⟨st⟩

/-- A message as drained by the renderer loop. -/
inductive RMsg where
  | start (plots : List PlotSpec)
  | stop
  | sendImage
  | addPoint (data : RPoint)
deriving DecidableEq, Repr

/-- Whether a message is `START`. -/
def RMsg.isStart : RMsg → Bool
  | .start _ => true
  | _ => false

/-- The `ADD_POINT` payload of a message, if any. -/
def RMsg.pointData : RMsg → Option RPoint
  | .addPoint d => some d
  | _ => none

/-- The accumulator of the message-scanning `for` loop in `_plot_loop`. -/
structure LoopAcc where
  proc : ProcSt
  data : List RPoint
  send : Bool
  quitFlag : Bool

/-- One message handled by the `for` loop of `_plot_loop`: `START` builds
the figure, `STOP` sets the quit flag, `SEND_IMAGE` sets the send flag,
`ADD_POINT` collects its payload. -/
def loopHandle (acc : LoopAcc) (m : RMsg) : LoopAcc :=
  match m with
  | .start pl => { acc with proc := procStart pl }
  | .stop => { acc with quitFlag := true }
  | .sendImage => { acc with send := true }
  | .addPoint d => { acc with data := acc.data ++ [d] }

/-- One iteration of the renderer's event loop on the batch of messages
drained from the pipe this round: scan all messages, then apply the
collected points in one `add_points` call, then send the image reply if one
was requested. Returns the figure state, the reply (if any), and whether
the loop will stop. -/
def loopIter (st : ProcSt) (msgs : List RMsg) : ProcSt × Option Image × Bool :=
  let acc := msgs.foldl loopHandle ⟨st, [], false, false⟩
  let st2 := if acc.data.length > 0 then procAddPoints acc.proc acc.data else acc.proc
  (st2, if acc.send then some (procImage st2) else none, acc.quitFlag)

/-! ## Derived definitions and instances used by the theorems -/

/-- The uncompressed row-file content after a sequence of `add_points`
batches, starting from a fresh writer. -/
def writerData (batches : List (List (List Val))) : List Char :=
  encodeFile '\t' (batches.flatten.map (fun p => p.map Val.pyStr))

/-- Decidable equality for `Except` results, used to evaluate the model on
concrete runs. -/
instance exceptDecEq {e a : Type} [DecidableEq e] [DecidableEq a] :
    DecidableEq (Except e a) := fun x y =>
  match x, y with
  | .error u, .error v =>
      if h : u = v then isTrue (by rw [h])
      else isFalse (fun hh => h (Except.error.injEq u v ▸ hh))
  | .error u, .ok b => isFalse (fun hh => Except.noConfusion hh)
  | .ok u, .error v => isFalse (fun hh => Except.noConfusion hh)
  | .ok u, .ok v =>
      if h : u = v then isTrue (by rw [h])
      else isFalse (fun hh => h (Except.ok.injEq u v ▸ hh))

/-- The malformedness condition Claim C7 ascribes to plot specifications,
with its first clause weakened to what the source checks: a mismatched
count is only rejected when BOTH the x and the y lists have more than one
entry. -/
def badPlotSpec (xs ys zs : List String) : Prop :=
  (xs.length > 1 ∧ ys.length > 1 ∧ xs.length ≠ ys.length)
  ∨ (zs.length = 1 ∧ (xs.length > 1 ∨ ys.length > 1))
  ∨ zs.length > 1

instance (xs ys zs : List String) : Decidable (badPlotSpec xs ys zs) := by
  unfold badPlotSpec; infer_instance


/-! ## Round-trip lemmas: translation layer -/

/-- Characters other than specials, decoded from a false `specialChar` test. -/
theorem plain_of_not_special {delim c : Char} (h : specialChar delim c = false) :
    c ≠ delim ∧ c ≠ '"' ∧ c ≠ '\r' ∧ c ≠ '\n' := by
  simp only [specialChar, Bool.or_eq_false_iff, beq_eq_false_iff_ne, ne_eq] at h
  exact ⟨h.1.1.1, h.1.1.2, h.1.2, h.2⟩

/-- Translation passes a non-carriage-return character through. -/
theorem unlTranslate_cons {c : Char} (h : c ≠ '\r') (cs : List Char) :
    unlTranslate (c :: cs) = c :: unlTranslate cs := by
  cases cs <;> simp [unlTranslate, h]

/-- Translation of a carriage-return free prefix followed by CRLF. -/
theorem unlTranslate_crlf {s : List Char} (h : '\r' ∉ s) (t : List Char) :
    unlTranslate (s ++ '\r' :: '\n' :: t) = s ++ '\n' :: unlTranslate t := by
  induction s with
  | nil => simp [unlTranslate]
  | cons c s ih =>
      have hc : c ≠ '\r' := fun hc => h (hc ▸ List.mem_cons_self c s)
      have hs : '\r' ∉ s := fun hs => h (List.mem_cons_of_mem c hs)
      simp only [List.cons_append, unlTranslate_cons hc, ih hs]

/-- Quote doubling introduces no carriage return. -/
theorem escQ_nocr {f : List Char} (h : '\r' ∉ f) : '\r' ∉ escQ f := by
  induction f with
  | nil => simp [escQ]
  | cons c cs ih =>
      have hc : c ≠ '\r' := fun hc => h (hc ▸ List.mem_cons_self c cs)
      have hs : '\r' ∉ cs := fun hs => h (List.mem_cons_of_mem c hs)
      by_cases hq : c = '"'
      · subst hq
        intro hmem
        simp only [escQ, ite_true, if_true, List.mem_cons] at hmem
        rcases hmem with h1 | h1 | h1
        · exact absurd h1 (by decide)
        · exact absurd h1 (by decide)
        · exact ih hs h1
      · intro hmem
        simp only [escQ, if_neg hq, List.mem_cons] at hmem
        rcases hmem with h1 | h1
        · exact hc h1.symm
        · exact ih hs h1

/-- Field encoding introduces no carriage return. -/
theorem encodeField_nocr {delim : Char} {f : List Char} (h : '\r' ∉ f) :
    '\r' ∉ encodeField delim f := by
  unfold encodeField
  split
  · simp only [List.mem_cons, List.mem_append, List.mem_singleton]
    rintro (h1 | h1 | h1) <;> first
      | exact absurd h1.symm (by decide)
      | exact escQ_nocr h h1
  · exact h

/-- Joining fields with a non-CR delimiter introduces no carriage return. -/
theorem joinDelim_nocr {delim : Char} (hd : delim ≠ '\r') :
    ∀ {l : List (List Char)}, (∀ f ∈ l, '\r' ∉ f) → '\r' ∉ joinDelim delim l
  | [], _ => by simp [joinDelim]
  | [f], h => by simpa [joinDelim] using h f (List.mem_singleton.mpr rfl)
  | f :: g :: fs, h => by
      simp only [joinDelim, List.mem_append, List.mem_cons]
      rintro (h1 | h1 | h1)
      · exact h f (by simp) h1
      · exact hd h1.symm
      · exact joinDelim_nocr hd (fun x hx => h x (List.mem_cons_of_mem f hx)) h1

/-- Row encoding introduces no carriage return. -/
theorem encodeRow_nocr {delim : Char} (hd : delim ≠ '\r') {r : List (List Char)}
    (h : ∀ f ∈ r, '\r' ∉ f) : '\r' ∉ encodeRow delim r := by
  unfold encodeRow
  split
  · decide
  · exact joinDelim_nocr hd (by
      intro f hf
      obtain ⟨g, hg, rfl⟩ := List.mem_map.mp hf
      exact encodeField_nocr (h g hg))

/-- Text-mode translation of the written file: every CRLF record terminator
becomes a bare LF, and nothing else changes, provided no value contains a
carriage return. -/
theorem unlTranslate_encodeFile {delim : Char} (hd : delim ≠ '\r') :
    ∀ {rows : List (List (List Char))}, (∀ r ∈ rows, ∀ f ∈ r, '\r' ∉ f) →
      unlTranslate (encodeFile delim rows)
        = (rows.map (fun r => encodeRow delim r ++ ['\n'])).flatten := by
  intro rows
  induction rows with
  | nil => intro _; simp [encodeFile, unlTranslate]
  | cons r rows ih =>
      intro h
      have hr : '\r' ∉ encodeRow delim r := encodeRow_nocr hd (h r (by simp))
      have hrest : ∀ r ∈ rows, ∀ f ∈ r, '\r' ∉ f :=
        fun x hx => h x (List.mem_cons_of_mem r hx)
      simp only [encodeFile, List.map_cons, List.flatten_cons, writeRow,
        List.append_assoc, List.cons_append, List.nil_append]
      rw [unlTranslate_crlf hr]
      simp only [encodeFile] at ih
      rw [ih hrest]

/-! ## Round-trip lemmas: parser layer -/

/-- An unquoted run of plain characters is accumulated verbatim by the
in-field state. -/
theorem runInField_plain {delim : Char} :
    ∀ {f : List Char}, (∀ c ∈ f, specialChar delim c = false) →
    ∀ (rec : List (List Char)) (field rest : List Char),
      runInField delim rec field (f ++ rest) = runInField delim rec (field ++ f) rest
  | [], _, rec, field, rest => by simp
  | c :: f, h, rec, field, rest => by
      obtain ⟨hcd, hcq, hcr, hcn⟩ := plain_of_not_special (h c (by simp))
      have hf : ∀ x ∈ f, specialChar delim x = false :=
        fun x hx => h x (List.mem_cons_of_mem c hx)
      rw [List.cons_append, runInField, if_neg hcn, if_neg hcd,
        runInField_plain hf rec (field ++ [c]) rest]
      simp [List.append_assoc]

/-- A quote-escaped run followed by the closing quote is accumulated
unescaped by the in-quote state, landing just after the closing quote. -/
theorem runInQuoted_esc {delim : Char} :
    ∀ (g : List Char) (rec : List (List Char)) (field rest : List Char),
      runInQuoted delim rec field (escQ g ++ '"' :: rest)
        = runQuoteInQuoted delim rec (field ++ g) rest
  | [], rec, field, rest => by simp [escQ, runInQuoted]
  | c :: g, rec, field, rest => by
      by_cases hq : c = '"'
      · subst hq
        rw [escQ, if_pos rfl, List.cons_append, List.cons_append, runInQuoted,
          if_pos rfl, runQuoteInQuoted, if_pos rfl,
          runInQuoted_esc g rec (field ++ ['"']) rest]
        simp [List.append_assoc]
      · rw [escQ, if_neg hq, List.cons_append, runInQuoted, if_neg hq,
          runInQuoted_esc g rec (field ++ [c]) rest]
        simp [List.append_assoc]

/-- Decompose a false `needsQuote` into per-character facts. -/
theorem plain_of_not_needsQuote {delim : Char} {f : List Char}
    (h : needsQuote delim f = false) : ∀ c ∈ f, specialChar delim c = false := by
  intro c hc
  have := List.any_eq_false.mp h c hc
  exact Bool.not_eq_true _ ▸ Bool.eq_false_iff.mpr this

/-- Consuming one encoded field terminated by a newline, starting just after
a delimiter: the field is decoded and the record emitted continues. -/
theorem runStartField_encFieldNl {delim : Char} (hdn : delim ≠ '\n')
    (hdq : delim ≠ '"') (f : List Char) (rec : List (List Char)) (rest : List Char) :
    runStartField delim rec (encodeField delim f ++ '\n' :: rest)
      = (rec ++ [f]) :: runStartRecord delim rest := by
  by_cases hq : needsQuote delim f
  · rw [encodeField, if_pos hq, List.cons_append, runStartField,
      if_neg (by decide : ('"' : Char) ≠ '\n'), if_neg (Ne.symm hdq), if_pos rfl,
      List.append_assoc, List.singleton_append, runInQuoted_esc,
      List.nil_append, runQuoteInQuoted, if_neg (by decide : ('\n' : Char) ≠ '"'),
      if_pos rfl]
  · have hall := plain_of_not_needsQuote (Bool.eq_false_iff.mpr hq)
    rw [encodeField, if_neg hq]
    cases f with
    | nil => rw [List.nil_append, runStartField, if_pos rfl]
    | cons c f =>
        obtain ⟨hcd, hcq, hcr, hcn⟩ := plain_of_not_special (hall c (by simp))
        have hf : ∀ x ∈ f, specialChar delim x = false :=
          fun x hx => hall x (List.mem_cons_of_mem c hx)
        rw [List.cons_append, runStartField, if_neg hcn, if_neg hcd, if_neg hcq,
          runInField_plain hf, List.singleton_append, runInField, if_pos rfl]

/-- Consuming one encoded field terminated by a delimiter, starting just
after a delimiter: the field is decoded and parsing resumes at the start of
the next field. -/
theorem runStartField_encFieldDelim {delim : Char} (hdn : delim ≠ '\n')
    (hdq : delim ≠ '"') (f : List Char) (rec : List (List Char)) (rest : List Char) :
    runStartField delim rec (encodeField delim f ++ delim :: rest)
      = runStartField delim (rec ++ [f]) rest := by
  by_cases hq : needsQuote delim f
  · rw [encodeField, if_pos hq, List.cons_append, runStartField,
      if_neg (by decide : ('"' : Char) ≠ '\n'), if_neg (Ne.symm hdq), if_pos rfl,
      List.append_assoc, List.singleton_append, runInQuoted_esc,
      List.nil_append, runQuoteInQuoted, if_neg hdq, if_neg hdn, if_pos rfl]
  · have hall := plain_of_not_needsQuote (Bool.eq_false_iff.mpr hq)
    rw [encodeField, if_neg hq]
    cases f with
    | nil => rw [List.nil_append, runStartField, if_neg hdn, if_pos rfl]
    | cons c f =>
        obtain ⟨hcd, hcq, hcr, hcn⟩ := plain_of_not_special (hall c (by simp))
        have hf : ∀ x ∈ f, specialChar delim x = false :=
          fun x hx => hall x (List.mem_cons_of_mem c hx)
        rw [List.cons_append, runStartField, if_neg hcn, if_neg hcd, if_neg hcq,
          runInField_plain hf, List.singleton_append, runInField, if_neg hdn,
          if_pos rfl]

/-- First field of a record, nonempty, terminated by a newline, entered from
the start-of-record state. -/
theorem runStartRecord_encFieldNl {delim : Char} (hdn : delim ≠ '\n')
    (hdq : delim ≠ '"') {f : List Char} (hf : f ≠ []) (rest : List Char) :
    runStartRecord delim (encodeField delim f ++ '\n' :: rest)
      = [f] :: runStartRecord delim rest := by
  by_cases hq : needsQuote delim f
  · rw [encodeField, if_pos hq, List.cons_append, runStartRecord,
      if_neg (by decide : ('"' : Char) ≠ '\n'), if_neg (Ne.symm hdq), if_pos rfl,
      List.append_assoc, List.singleton_append, runInQuoted_esc,
      List.nil_append, runQuoteInQuoted, if_neg (by decide : ('\n' : Char) ≠ '"'),
      if_pos rfl, List.nil_append]
  · have hall := plain_of_not_needsQuote (Bool.eq_false_iff.mpr hq)
    rw [encodeField, if_neg hq]
    cases f with
    | nil => exact absurd rfl hf
    | cons c f =>
        obtain ⟨hcd, hcq, hcr, hcn⟩ := plain_of_not_special (hall c (by simp))
        have hf2 : ∀ x ∈ f, specialChar delim x = false :=
          fun x hx => hall x (List.mem_cons_of_mem c hx)
        rw [List.cons_append, runStartRecord, if_neg hcn, if_neg hcd, if_neg hcq,
          runInField_plain hf2, List.singleton_append, runInField, if_pos rfl,
          List.nil_append]

/-- First field of a record terminated by a delimiter, entered from the
start-of-record state. -/
theorem runStartRecord_encFieldDelim {delim : Char} (hdn : delim ≠ '\n')
    (hdq : delim ≠ '"') (f : List Char) (rest : List Char) :
    runStartRecord delim (encodeField delim f ++ delim :: rest)
      = runStartField delim [f] rest := by
  by_cases hq : needsQuote delim f
  · rw [encodeField, if_pos hq, List.cons_append, runStartRecord,
      if_neg (by decide : ('"' : Char) ≠ '\n'), if_neg (Ne.symm hdq), if_pos rfl,
      List.append_assoc, List.singleton_append, runInQuoted_esc,
      List.nil_append, runQuoteInQuoted, if_neg hdq, if_neg hdn, if_pos rfl,
      List.nil_append]
  · have hall := plain_of_not_needsQuote (Bool.eq_false_iff.mpr hq)
    rw [encodeField, if_neg hq]
    cases f with
    | nil => rw [List.nil_append, runStartRecord, if_neg hdn, if_pos rfl]
    | cons c f =>
        obtain ⟨hcd, hcq, hcr, hcn⟩ := plain_of_not_special (hall c (by simp))
        have hf2 : ∀ x ∈ f, specialChar delim x = false :=
          fun x hx => hall x (List.mem_cons_of_mem c hx)
        rw [List.cons_append, runStartRecord, if_neg hcn, if_neg hcd, if_neg hcq,
          runInField_plain hf2, List.singleton_append, runInField, if_neg hdn,
          if_pos rfl, List.nil_append]

/-- Consuming a nonempty delimiter-joined field list terminated by a
newline, from the just-after-a-delimiter state. -/
theorem runStartField_fields {delim : Char} (hdn : delim ≠ '\n') (hdq : delim ≠ '"') :
    ∀ (fs : List (List Char)) (rec : List (List Char)) (rest : List Char), fs ≠ [] →
      runStartField delim rec
          (joinDelim delim (fs.map (encodeField delim)) ++ '\n' :: rest)
        = (rec ++ fs) :: runStartRecord delim rest
  | [], _, _, h => absurd rfl h
  | [f], rec, rest, _ => by
      rw [List.map_singleton, joinDelim, runStartField_encFieldNl hdn hdq]
  | f :: g :: fs, rec, rest, _ => by
      have ih := runStartField_fields hdn hdq (g :: fs) (rec ++ [f]) rest (by simp)
      rw [List.map_cons] at ih
      rw [List.map_cons, List.map_cons, joinDelim, List.append_assoc,
        List.cons_append, runStartField_encFieldDelim hdn hdq, ih,
        List.append_assoc, List.singleton_append]

/-- One whole encoded record followed by a newline parses to exactly that
record, and parsing resumes at the start of the next record. -/
theorem runStartRecord_row {delim : Char} (hdn : delim ≠ '\n') (hdq : delim ≠ '"')
    (r : List (List Char)) (rest : List Char) :
    runStartRecord delim (encodeRow delim r ++ '\n' :: rest)
      = r :: runStartRecord delim rest := by
  by_cases hsp : r = [[]]
  · subst hsp
    rw [encodeRow, if_pos rfl]
    rw [show (['"', '"'] : List Char) ++ '\n' :: rest = '"' :: '"' :: '\n' :: rest
      from rfl]
    rw [runStartRecord, if_neg (by decide : ('"' : Char) ≠ '\n'),
      if_neg (Ne.symm hdq), if_pos rfl, runInQuoted, if_pos rfl,
      runQuoteInQuoted, if_neg (by decide : ('\n' : Char) ≠ '"'), if_pos rfl,
      List.nil_append]
  · rw [encodeRow, if_neg hsp]
    match r with
    | [] => rw [List.map_nil, joinDelim, List.nil_append, runStartRecord, if_pos rfl]
    | [f] =>
        have hf : f ≠ [] := fun h => hsp (by rw [h])
        rw [List.map_singleton, joinDelim, runStartRecord_encFieldNl hdn hdq hf]
    | f :: g :: fs =>
        have ih := runStartField_fields hdn hdq (g :: fs) [f] rest (by simp)
        rw [List.map_cons] at ih
        rw [List.map_cons, List.map_cons, joinDelim, List.append_assoc,
          List.cons_append, runStartRecord_encFieldDelim hdn hdq, ih,
          List.singleton_append]

/-- The parser inverts the writer on a newline-terminated file. -/
theorem csvParse_encodeLf {delim : Char} (hdn : delim ≠ '\n') (hdq : delim ≠ '"') :
    ∀ rows : List (List (List Char)),
      runStartRecord delim
          ((rows.map (fun r => encodeRow delim r ++ ['\n'])).flatten) = rows
  | [] => by rw [List.map_nil, List.flatten_nil, runStartRecord]
  | r :: rows => by
      rw [List.map_cons, List.flatten_cons, List.append_assoc,
        List.singleton_append, runStartRecord_row hdn hdq,
        csvParse_encodeLf hdn hdq rows]

/-- Full round trip of the run store's data path: csv-encode with CRLF
terminators, read back through the universal-newline text layer and the csv
parser. Holds for every sequence of rows none of whose values contains a
carriage return. -/
theorem csvParse_unl_encodeFile {delim : Char} (hdn : delim ≠ '\n')
    (hdq : delim ≠ '"') (hdr : delim ≠ '\r') {rows : List (List (List Char))}
    (h : ∀ r ∈ rows, ∀ f ∈ r, '\r' ∉ f) :
    csvParse delim (unlTranslate (encodeFile delim rows)) = rows := by
  rw [csvParse, unlTranslate_encodeFile hdr h, csvParse_encodeLf hdn hdq]

/-! ## Helper lemmas for the run-directory map -/

/-- Reading back the file just written. -/
theorem fsSet_self (fs : RunFS) (n : String) (c : List Char) :
    fsSet fs n c n = some c := by
  simp [fsSet]

/-- Writing one file leaves the others unchanged. -/
theorem fsSet_other (fs : RunFS) {n m : String} (c : List Char) (h : m ≠ n) :
    fsSet fs n c m = fs m := by
  simp [fsSet, h]

/-- Removing one file leaves the others unchanged. -/
theorem fsRemove_other (fs : RunFS) {n m : String} (h : m ≠ n) :
    fsRemove fs n m = fs m := by
  simp [fsRemove, h]

/-- The removed file is gone. -/
theorem fsRemove_self (fs : RunFS) (n : String) : fsRemove fs n n = none := by
  simp [fsRemove]

/-- Appending suffixes keeps file names distinct from their base. -/
theorem ne_append_gz (s : String) : s ≠ s ++ ".gz" := by
  intro h
  have hlen := congrArg String.length h
  rw [String.length_append, show (".gz" : String).length = 3 from rfl] at hlen
  omega

/-! ## Helper lemmas for the writer-side content -/

/-- Encoding distributes over concatenation of row lists. -/
theorem encodeFile_append (delim : Char) (a b : List (List (List Char))) :
    encodeFile delim (a ++ b) = encodeFile delim a ++ encodeFile delim b := by
  simp [encodeFile]

/-- Reading `data.tsv` back right after an `add_points` batch. -/
theorem writerAddPoints_content (w : WriterSt) (pts : List (List Val)) :
    (writerAddPoints w pts).fs "data.tsv"
      = some (((w.fs "data.tsv").getD [])
          ++ encodeFile '\t' (pts.map (fun p => p.map Val.pyStr))) := by
  simp [writerAddPoints, fsSet]

/-- The fresh writer's `data.tsv` is empty. -/
theorem writerNew_content : writerNew.fs "data.tsv" = some [] := by
  simp [writerNew, fsSet]

/-- `add_points` batches only touch `data.tsv`. -/
theorem writerAddPoints_other (w : WriterSt) (pts : List (List Val))
    {m : String} (h : m ≠ "data.tsv") : (writerAddPoints w pts).fs m = w.fs m := by
  simp [writerAddPoints, fsSet, h]

/-- `add_points` keeps `datapath` unchanged. -/
theorem writerAddPoints_datapath (w : WriterSt) (pts : List (List Val)) :
    (writerAddPoints w pts).datapath = w.datapath := rfl

/-- `datapath` is unchanged across any sequence of batches. -/
theorem foldl_writerAddPoints_datapath :
    ∀ (batches : List (List (List Val))) (w : WriterSt),
      (batches.foldl writerAddPoints w).datapath = w.datapath
  | [], _ => rfl
  | b :: bs, w => by
      rw [List.foldl_cons, foldl_writerAddPoints_datapath bs (writerAddPoints w b),
        writerAddPoints_datapath]

/-- Files other than `data.tsv` are unchanged across any sequence of
batches. -/
theorem foldl_writerAddPoints_other :
    ∀ (batches : List (List (List Val))) (w : WriterSt) {m : String}, m ≠ "data.tsv" →
      (batches.foldl writerAddPoints w).fs m = w.fs m
  | [], _, _, _ => rfl
  | b :: bs, w, m, h => by
      rw [List.foldl_cons, foldl_writerAddPoints_other bs (writerAddPoints w b) h,
        writerAddPoints_other w b h]

/-- The accumulated `data.tsv` content across a sequence of batches. -/
theorem foldl_writerAddPoints_content :
    ∀ (batches : List (List (List Val))) (w : WriterSt) (c : List Char),
      w.fs "data.tsv" = some c →
      (batches.foldl writerAddPoints w).fs "data.tsv"
        = some (c ++ encodeFile '\t' (batches.flatten.map (fun p => p.map Val.pyStr)))
  | [], w, c, h => by
      simpa [encodeFile] using h
  | b :: bs, w, c, h => by
      rw [List.foldl_cons,
        foldl_writerAddPoints_content bs (writerAddPoints w b)
          (c ++ encodeFile '\t' (b.map (fun p => p.map Val.pyStr)))
          (by rw [writerAddPoints_content, h]; rfl),
        List.flatten_cons, List.map_append, encodeFile_append, List.append_assoc]

/-- The whole scenario content equals `writerData`. -/
theorem foldl_writerAddPoints_writerNew (batches : List (List (List Val))) :
    (batches.foldl writerAddPoints writerNew).fs "data.tsv" = some (writerData batches) := by
  rw [foldl_writerAddPoints_content batches writerNew [] writerNew_content,
    List.nil_append, writerData]

/-- `Writer.close` on a standard writer whose compression round-trips:
returns the repointed path, and leaves exactly the compressed file and the
metadata on disk, the uncompressed original removed. -/
theorem writerClose_ok (compress decompress : List Char → List Char)
    (w : WriterSt) (metaContent c : List Char)
    (hdp : w.datapath = "data.tsv")
    (hcontent : w.fs "data.tsv" = some c)
    (hzip : decompress (compress c) = c) :
    (writerClose compress decompress w metaContent).2 = Except.ok "data.tsv.gz"
    ∧ (writerClose compress decompress w metaContent).1 "data.tsv.gz"
        = some (compress c)
    ∧ (writerClose compress decompress w metaContent).1 "metadata.json"
        = some metaContent
    ∧ (writerClose compress decompress w metaContent).1 "data.tsv" = none := by
  have hread : (fsSet w.fs "metadata.json" metaContent) "data.tsv" = some c := by
    rw [fsSet_other w.fs metaContent (by decide : ("data.tsv" : String) ≠ "metadata.json"),
      hcontent]
  simp only [writerClose, hdp, hread, Option.getD_some,
    show ("data.tsv" ++ ".gz" : String) = "data.tsv.gz" from by decide]
  have hcond : files_equal decompress c (compress c) = true := by
    simp [files_equal, hzip]
  rw [if_pos hcond]
  refine ⟨rfl, ?_, ?_, ?_⟩
  · show fsRemove (fsSet (fsSet w.fs "metadata.json" metaContent) "data.tsv.gz"
        (compress c)) "data.tsv" "data.tsv.gz" = some (compress c)
    rw [fsRemove_other _ (by decide : ("data.tsv.gz" : String) ≠ "data.tsv"),
      fsSet_self]
  · show fsRemove (fsSet (fsSet w.fs "metadata.json" metaContent) "data.tsv.gz"
        (compress c)) "data.tsv" "metadata.json" = some metaContent
    rw [fsRemove_other _ (by decide : ("metadata.json" : String) ≠ "data.tsv"),
      fsSet_other _ _ (by decide : ("metadata.json" : String) ≠ "data.tsv.gz"),
      fsSet_self]
  · show fsRemove (fsSet (fsSet w.fs "metadata.json" metaContent) "data.tsv.gz"
        (compress c)) "data.tsv" "data.tsv" = none
    rw [fsRemove_self]

/-- `Reader` opened on a directory holding both required files decodes the
decompressed stream tab-delimited. -/
theorem readerAllData_of (decompress : List Char → List Char) (fs : RunFS)
    (gz m : List Char) (h1 : fs "data.tsv.gz" = some gz)
    (h2 : fs "metadata.json" = some m) :
    readerAllData decompress fs
      = Except.ok (csvParse '\t' (unlTranslate (decompress gz))) := by
  simp only [readerAllData, h1, h2]

/-! ## Claim C1 -/

/-- Claim C1 (amended): for every sequence of row-append calls
(`add_point`/`add_points`) on a `Writer` followed by `close()`, provided no
value's text encoding contains a carriage-return character, a `Reader`
opened on the resulting run returns via `all_data` exactly the appended
rows, in the same order, with each value round-tripped through its text
encoding (e.g. the row `[0]` reads back as `['0']`). The close-succeeded
hypothesis is the gzip round trip that `close` itself verifies. -/
theorem writer_reader_roundtrip
    (compress decompress : List Char → List Char)
    (batches : List (List (List Val))) (metaContent : List Char)
    (hcr : ∀ p ∈ batches.flatten, ∀ v ∈ p, '\r' ∉ v.pyStr)
    (hzip : decompress (compress (writerData batches)) = writerData batches) :
    (writerClose compress decompress (List.foldl writerAddPoints writerNew batches)
        metaContent).2 = Except.ok "data.tsv.gz"
    ∧ readerAllData decompress
        (writerClose compress decompress
          (List.foldl writerAddPoints writerNew batches) metaContent).1
      = Except.ok (batches.flatten.map (fun p => p.map Val.pyStr)) := by
  obtain ⟨h2, hgz, hmeta, _⟩ := writerClose_ok compress decompress
    (List.foldl writerAddPoints writerNew batches) metaContent (writerData batches)
    (foldl_writerAddPoints_datapath batches writerNew)
    (foldl_writerAddPoints_writerNew batches) hzip
  refine ⟨h2, ?_⟩
  have hrows : ∀ r ∈ batches.flatten.map (fun p => p.map Val.pyStr),
      ∀ f ∈ r, '\r' ∉ f := by
    intro r hr f hf
    obtain ⟨p, hp, rfl⟩ := List.mem_map.mp hr
    obtain ⟨v, hv, rfl⟩ := List.mem_map.mp hf
    exact hcr p hp v hv
  rw [readerAllData_of decompress _ (compress (writerData batches)) metaContent
      hgz hmeta, hzip, writerData,
    csvParse_unl_encodeFile (by decide) (by decide) (by decide) hrows]

/-- Claim C1 counterexample: the single appended row `["a\rb"]` is accepted,
`close()` succeeds, yet `all_data` returns `[["a\nb"]]` — the carriage
return inside the value is translated to a newline by the text-mode read
layer, so the value does not round-trip through its text encoding. -/
theorem writer_reader_cr_not_roundtrip :
    (writerClose id id (writerAddPoint writerNew [Val.str ('a' :: '\r' :: 'b' :: [])])
        []).2 = Except.ok "data.tsv.gz"
    ∧ readerAllData id (writerClose id id
          (writerAddPoint writerNew [Val.str ('a' :: '\r' :: 'b' :: [])]) []).1
        ≠ Except.ok [[(Val.str ('a' :: '\r' :: 'b' :: [])).pyStr]]
    ∧ readerAllData id (writerClose id id
          (writerAddPoint writerNew [Val.str ('a' :: '\r' :: 'b' :: [])]) []).1
        = Except.ok [['a' :: '\n' :: 'b' :: []]] := by decide

/-- Witness for the amended Claim C1 at the spec's own scenario: append
`[0]` then `[1, 'foo']`, close, read back `[['0'], ['1', 'foo']]`. -/
theorem writer_reader_roundtrip_witness :
    (writerClose id id (List.foldl writerAddPoints writerNew
        [[[Val.int 0]], [[Val.int 1, Val.str "foo".data]]]) []).2
      = Except.ok "data.tsv.gz"
    ∧ readerAllData id (writerClose id id (List.foldl writerAddPoints writerNew
        [[[Val.int 0]], [[Val.int 1, Val.str "foo".data]]]) []).1
      = Except.ok (([[[Val.int 0]], [[Val.int 1, Val.str "foo".data]]] :
          List (List (List Val))).flatten.map (fun p => p.map Val.pyStr)) :=
  writer_reader_roundtrip id id [[[Val.int 0]], [[Val.int 1, Val.str "foo".data]]]
    [] (by decide) rfl

/-! ## Claim C2 -/

/-- Claim C2: if, during `Writer.close()`, the digest of the decompressed
copy differs from the digest of the uncompressed row file, close fails with
the `IntegrityError`-class error and both the uncompressed original and the
compressed file remain on disk; only on successful verification is the
uncompressed original deleted and the stored data-file path repointed to
the compressed file. -/
theorem writerClose_integrity (compress decompress : List Char → List Char)
    (w : WriterSt) (metaContent c : List Char)
    (hdp : w.datapath ≠ "metadata.json") (hex : w.fs w.datapath = some c) :
    (files_equal decompress c (compress c) = false →
      (writerClose compress decompress w metaContent).2
          = Except.error Err.integrityError
        ∧ (writerClose compress decompress w metaContent).1 w.datapath = some c
        ∧ (writerClose compress decompress w metaContent).1 (w.datapath ++ ".gz")
            = some (compress c))
    ∧ (files_equal decompress c (compress c) = true →
      (writerClose compress decompress w metaContent).2
          = Except.ok (w.datapath ++ ".gz")
        ∧ (writerClose compress decompress w metaContent).1 w.datapath = none
        ∧ (writerClose compress decompress w metaContent).1 (w.datapath ++ ".gz")
            = some (compress c)) := by
  have hread : (fsSet w.fs "metadata.json" metaContent) w.datapath = some c := by
    rw [fsSet_other _ _ hdp, hex]
  constructor
  · intro hfail
    simp only [writerClose, hread, Option.getD_some]
    rw [if_neg (by rw [hfail]; exact Bool.false_ne_true)]
    refine ⟨rfl, ?_, ?_⟩
    · show fsSet (fsSet w.fs "metadata.json" metaContent) (w.datapath ++ ".gz")
          (compress c) w.datapath = some c
      rw [fsSet_other _ _ (ne_append_gz w.datapath), hread]
    · show fsSet (fsSet w.fs "metadata.json" metaContent) (w.datapath ++ ".gz")
          (compress c) (w.datapath ++ ".gz") = some (compress c)
      rw [fsSet_self]
  · intro hok
    simp only [writerClose, hread, Option.getD_some]
    rw [if_pos hok]
    refine ⟨rfl, ?_, ?_⟩
    · show fsRemove (fsSet (fsSet w.fs "metadata.json" metaContent)
          (w.datapath ++ ".gz") (compress c)) w.datapath w.datapath = none
      rw [fsRemove_self]
    · show fsRemove (fsSet (fsSet w.fs "metadata.json" metaContent)
          (w.datapath ++ ".gz") (compress c)) w.datapath (w.datapath ++ ".gz")
        = some (compress c)
      rw [fsRemove_other _ (Ne.symm (ne_append_gz w.datapath)), fsSet_self]

/-- Witness for Claim C2: with an intentionally corrupting decompressor the
close of a one-row run fails with `IntegrityError`; with a faithful one it
succeeds and repoints the data path. -/
theorem writerClose_integrity_witness :
    (writerClose id (fun l => '!' :: l) (writerAddPoint writerNew [Val.int 0]) []).2
        = Except.error Err.integrityError
    ∧ (writerClose id id (writerAddPoint writerNew [Val.int 0]) []).2
        = Except.ok ((writerAddPoint writerNew [Val.int 0]).datapath ++ ".gz") :=
  ⟨((writerClose_integrity id (fun l => '!' :: l)
      (writerAddPoint writerNew [Val.int 0]) [] ['0', '\r', '\n']
      (by decide) (by decide)).1 (by decide)).1,
   ((writerClose_integrity id id
      (writerAddPoint writerNew [Val.int 0]) [] ['0', '\r', '\n']
      (by decide) (by decide)).2 (by decide)).1⟩

/-! ## Claims C3 and C4 -/

/-- The scan loop returns nothing when every id in its window is taken. -/
theorem pickIdLoop_none (taken : Nat → Bool) :
    ∀ (budget start : Nat),
      (∀ i, start ≤ i → i < start + budget → taken i = true) →
      pickIdLoop taken start budget = none
  | 0, _, _ => rfl
  | budget + 1, start, h => by
      rw [pickIdLoop, if_pos (h start le_rfl (by omega))]
      exact pickIdLoop_none taken budget (start + 1)
        (fun i h1 h2 => h i (by omega) (by omega))

/-- What a successful scan says: the returned id lies in the window, is
free, and every id before it in the window is taken. -/
theorem pickIdLoop_some (taken : Nat → Bool) :
    ∀ (budget start i : Nat), pickIdLoop taken start budget = some i →
      start ≤ i ∧ i < start + budget ∧ taken i = false
        ∧ ∀ j, start ≤ j → j < i → taken j = true
  | 0, start, i, h => by exact absurd h (by rw [pickIdLoop]; exact Option.noConfusion)
  | budget + 1, start, i, h => by
      rw [pickIdLoop] at h
      by_cases ht : taken start = true
      · rw [if_pos ht] at h
        obtain ⟨h1, h2, h3, h4⟩ := pickIdLoop_some taken budget (start + 1) i h
        refine ⟨by omega, by omega, h3, fun j hj1 hj2 => ?_⟩
        rcases Nat.eq_or_lt_of_le hj1 with rfl | hlt
        · exact ht
        · exact h4 j hlt hj2
      · rw [if_neg ht] at h
        obtain rfl : start = i := Option.some.injEq _ _ ▸ h
        exact ⟨le_rfl, by omega, Bool.not_eq_true _ ▸ ht, fun j hj1 hj2 => by omega⟩

/-- Claim C3: creating a `Writer` with `max_id = k` against a base directory
in which ids 0 through k are all already taken fails with the
`ResourceExhausted`-class error, and no id greater than `max_id` is ever
allocated. -/
theorem pickId_exhausted_bounded (taken : Nat → Bool) (k : Nat) :
    ((∀ i, i ≤ k → taken i = true) →
      pickId taken k = Except.error Err.resourceExhausted)
    ∧ ∀ i, pickId taken k = Except.ok i → i ≤ k := by
  constructor
  · intro h
    rw [pickId, pickIdLoop_none taken (k + 1) 0 (fun i _ h2 => h i (by omega))]
  · intro i hi
    rw [pickId] at hi
    cases heq : pickIdLoop taken 0 (k + 1) with
    | none => rw [heq] at hi; exact absurd hi (by intro hh; cases hh)
    | some j =>
        rw [heq] at hi
        obtain rfl : j = i := Except.ok.injEq _ _ ▸ hi
        have := (pickIdLoop_some taken (k + 1) 0 j heq).2.1
        omega

/-- Witness for Claim C3 at `k = 2` with ids 0, 1, 2 taken, and a bounded
successful pick. -/
theorem pickId_exhausted_bounded_witness :
    pickId (fun n => n ≤ 2) 2 = Except.error Err.resourceExhausted
    ∧ (0 : Nat) ≤ 2 :=
  ⟨(pickId_exhausted_bounded (fun n => n ≤ 2) 2).1 (by decide),
   (pickId_exhausted_bounded (fun n => n == 1) 2).2 0 (by decide)⟩

/-- A successful `pickId` returns the smallest free id. -/
theorem pickId_minimal {taken : Nat → Bool} {maxId i : Nat}
    (h : pickId taken maxId = Except.ok i) :
    i ≤ maxId ∧ taken i = false ∧ ∀ j, j < i → taken j = true := by
  rw [pickId] at h
  cases heq : pickIdLoop taken 0 (maxId + 1) with
  | none => rw [heq] at h; exact absurd h (by intro hh; cases hh)
  | some j =>
      rw [heq] at h
      obtain rfl : j = i := Except.ok.injEq _ _ ▸ h
      obtain ⟨_, h2, h3, h4⟩ := pickIdLoop_some taken (maxId + 1) 0 j heq
      exact ⟨by omega, h3, fun k hk => h4 k (by omega) hk⟩

/-- An id picked after marking the previous pick taken is strictly larger. -/
theorem pickId_markTaken_gt {taken : Nat → Bool} {maxId i j : Nat}
    (h1 : pickId taken maxId = Except.ok i)
    (h2 : pickId (markTaken taken i) maxId = Except.ok j) : i < j := by
  obtain ⟨_, hfi, hmini⟩ := pickId_minimal h1
  obtain ⟨_, hfj, _⟩ := pickId_minimal h2
  rw [markTaken, Bool.or_eq_false_iff, beq_eq_false_iff_ne] at hfj
  rcases lt_trichotomy j i with hlt | rfl | hgt
  · exact absurd (hmini j hlt) (by rw [hfj.2]; exact Bool.false_ne_true)
  · exact absurd rfl hfj.1
  · exact hgt

/-- A fully successful allocation sequence has one id per writer and the
ids are strictly increasing. -/
theorem allocSeq_ok_chain :
    ∀ (N : Nat) (taken : Nat → Bool) (maxId : Nat) (ids : List Nat),
      allocSeq taken maxId N = ids.map Except.ok →
      ids.length = N ∧ List.Chain' (· < ·) ids
  | 0, _, _, ids, h => by
      rw [allocSeq] at h
      obtain rfl : ids = [] := (List.map_eq_nil_iff.mp h.symm)
      exact ⟨rfl, List.chain'_nil⟩
  | N + 1, taken, maxId, ids, h => by
      rw [allocSeq] at h
      cases hp : pickId taken maxId with
      | error e =>
          rw [hp] at h
          cases ids with
          | nil => exact absurd h (by simp)
          | cons a t =>
              rw [List.map_cons] at h
              exact absurd (List.head_eq_of_cons_eq h) (by intro hh; cases hh)
      | ok i =>
          rw [hp] at h
          cases ids with
          | nil => exact absurd h (by simp)
          | cons a t =>
              rw [List.map_cons] at h
              obtain rfl : a = i :=
                (Except.ok.injEq _ _ ▸ (List.head_eq_of_cons_eq h)).symm
              have htail := List.tail_eq_of_cons_eq h
              obtain ⟨hlen, hchain⟩ := allocSeq_ok_chain N (markTaken taken a) maxId t htail
              refine ⟨by simp [hlen], List.chain'_cons'.mpr ⟨?_, hchain⟩⟩
              intro b hb
              cases t with
              | nil => exact absurd hb (by simp)
              | cons b2 t2 =>
                  obtain rfl : b2 = b := by simpa using hb
                  cases N with
                  | zero => rw [allocSeq] at htail; exact absurd htail (by simp)
                  | succ M =>
                      rw [allocSeq] at htail
                      cases hp2 : pickId (markTaken taken a) maxId with
                      | error e =>
                          rw [hp2] at htail
                          rw [List.map_cons] at htail
                          exact absurd (List.head_eq_of_cons_eq htail)
                            (by intro hh; cases hh)
                      | ok j =>
                          rw [hp2] at htail
                          rw [List.map_cons] at htail
                          obtain rfl : j = b2 :=
                            Except.ok.injEq _ _ ▸ (List.head_eq_of_cons_eq htail)
                          exact pickId_markTaken_gt hp hp2

/-- Claim C4: creating `N` writers in sequence against the same base
directory (no external deletions) yields `N` distinct, strictly increasing
run ids, each the smallest unused integer at creation time (third
conjunct: every successful pick is free and everything below it taken). -/
theorem allocSeq_increasing (taken : Nat → Bool) (maxId N : Nat) (ids : List Nat)
    (h : allocSeq taken maxId N = ids.map Except.ok) :
    ids.length = N ∧ List.Chain' (· < ·) ids
    ∧ ∀ (t : Nat → Bool) (m i : Nat), pickId t m = Except.ok i →
        t i = false ∧ ∀ j, j < i → t j = true :=
  ⟨(allocSeq_ok_chain N taken maxId ids h).1,
   (allocSeq_ok_chain N taken maxId ids h).2,
   fun _ _ _ hp => ⟨(pickId_minimal hp).2.1, (pickId_minimal hp).2.2⟩⟩

/-- Witness for Claim C4: three writers against a directory in which id 1
pre-exists allocate 0, 2, 3. -/
theorem allocSeq_increasing_witness :
    ([0, 2, 3] : List Nat).length = 3 ∧ List.Chain' (· < ·) [0, 2, 3]
    ∧ ∀ (t : Nat → Bool) (m i : Nat), pickId t m = Except.ok i →
        t i = false ∧ ∀ j, j < i → t j = true :=
  allocSeq_increasing (fun n => n == 1) 1000000 3 [0, 2, 3] (by decide)

/-! ## Claim C5 -/

/-- Claim C5: `add_blob` with a name in the reserved set
`{data.tsv, data.tsv.gz, metadata.json}` fails with the
`InvalidArgument`-class error and does not create or overwrite any file;
with any other name it writes exactly the given bytes to a file of that
name in the run directory (and touches nothing else). -/
theorem writerAddBlob_reserved (w : WriterSt) (name : String) (data : List Char) :
    (name = "data.tsv" ∨ name = "data.tsv.gz" ∨ name = "metadata.json" →
      (writerAddBlob w name data).2 = Except.error Err.invalidArgument
        ∧ (writerAddBlob w name data).1 = w.fs)
    ∧ (¬(name = "data.tsv" ∨ name = "data.tsv.gz" ∨ name = "metadata.json") →
      (writerAddBlob w name data).2 = Except.ok name
        ∧ (writerAddBlob w name data).1 name = some data
        ∧ ∀ m, m ≠ name → (writerAddBlob w name data).1 m = w.fs m) := by
  constructor
  · intro h
    simp only [writerAddBlob]
    rw [if_pos h]
    exact ⟨rfl, rfl⟩
  · intro h
    simp only [writerAddBlob]
    rw [if_neg h]
    exact ⟨rfl, fsSet_self w.fs name data, fun m hm => fsSet_other w.fs data hm⟩

/-- Witness for Claim C5: the reserved name `metadata.json` is rejected
leaving the directory untouched, and `plot.png` is stored verbatim. -/
theorem writerAddBlob_reserved_witness :
    ((writerAddBlob writerNew "metadata.json" ['x']).2
        = Except.error Err.invalidArgument
      ∧ (writerAddBlob writerNew "metadata.json" ['x']).1 = writerNew.fs)
    ∧ ((writerAddBlob writerNew "plot.png" ['x']).2 = Except.ok "plot.png"
      ∧ (writerAddBlob writerNew "plot.png" ['x']).1 "plot.png" = some ['x']) :=
  ⟨(writerAddBlob_reserved writerNew "metadata.json" ['x']).1 (by decide),
   ⟨((writerAddBlob_reserved writerNew "plot.png" ['x']).2 (by decide)).1,
    ((writerAddBlob_reserved writerNew "plot.png" ['x']).2 (by decide)).2.1⟩⟩

/-! ## Claim C6 -/

/-- Claim C6 (code bug): on the finalized run holding the single row
`[1, 'foo']`, `all_data` returns `[['1', 'foo']]` but iterating the
`Reader` returns `[['1\tfoo']]`: `Reader.__iter__` constructs
`csv.reader(self._data)` with the default comma delimiter, while
`all_data` and the writer use `delimiter='\t'`, contradicting the class
docstring that offers the two access paths interchangeably. -/
theorem readerIter_readerAllData_disagree :
    (writerClose id id (writerAddPoint writerNew [Val.int 1, Val.str "foo".data])
        []).2 = Except.ok "data.tsv.gz"
    ∧ readerAllData id (writerClose id id
          (writerAddPoint writerNew [Val.int 1, Val.str "foo".data]) []).1
        = Except.ok [["1".data, "foo".data]]
    ∧ readerIterRows id (writerClose id id
          (writerAddPoint writerNew [Val.int 1, Val.str "foo".data]) []).1
        = Except.ok [["1\tfoo".data]]
    ∧ (["1\tfoo".data] : List (List Char)) ≠ ["1".data, "foo".data] := by decide

/-! ## Claim C7 -/

/-- Claim C7 counterexample: the specification `x=['a','b'], y='c'` has
multiple x columns whose count differs from the y column count, which the
claim says `plot()` must reject with `InvalidArgument`; the source accepts
it and registers the pair series. -/
theorem plotterPlot_mismatch_accepted :
    plotterPlot [] (PlotArg.list [PlotItem.str "a", PlotItem.str "b"])
        (PlotArg.item (PlotItem.str "c")) PlotArg.noneArg
      = Except.ok [(["a", "b"], ["c"], [])] := by decide

/-- Claim C7 (amended): `plot()` validates eagerly at registration time, on
the controller, and fails with the `InvalidArgument`-class error exactly
when: multiple x AND multiple y columns are given with mismatched counts;
or more than one z column is given; or a z column is given together with
more than one x or more than one y column. Otherwise it registers the
specification. -/
theorem plotterPlot_validates (plots : List PlotSpec) (x y z : PlotArg) :
    (badPlotSpec (to_names x) (to_names y) (to_names z) →
      plotterPlot plots x y z = Except.error Err.invalidArgument)
    ∧ (¬badPlotSpec (to_names x) (to_names y) (to_names z) →
      plotterPlot plots x y z
        = Except.ok (plots ++ [(to_names x, to_names y, to_names z)])) := by
  constructor
  · intro hb
    by_cases hA : (to_names x).length > 1 ∧ (to_names y).length > 1
        ∧ (to_names x).length ≠ (to_names y).length
    · simp only [plotterPlot]
      rw [if_pos hA]
    · by_cases hB : (to_names z).length = 1
          ∧ ((to_names x).length > 1 ∨ (to_names y).length > 1)
      · simp only [plotterPlot]
        rw [if_neg hA, if_pos hB]
      · have hC : (to_names z).length > 1 := by
          rcases hb with h | h | h
          · exact absurd h hA
          · exact absurd h hB
          · exact h
        simp only [plotterPlot]
        rw [if_neg hA, if_neg hB, if_pos hC]
  · intro hb
    have hA : ¬((to_names x).length > 1 ∧ (to_names y).length > 1
        ∧ (to_names x).length ≠ (to_names y).length) :=
      fun h => hb (Or.inl h)
    have hB : ¬((to_names z).length = 1
        ∧ ((to_names x).length > 1 ∨ (to_names y).length > 1)) :=
      fun h => hb (Or.inr (Or.inl h))
    have hC : ¬((to_names z).length > 1) := fun h => hb (Or.inr (Or.inr h))
    simp only [plotterPlot]
    rw [if_neg hA, if_neg hB, if_neg hC]

/-- Witness for the amended Claim C7: a mesh spec with two z columns is
rejected; a single-x multi-y line spec is registered. -/
theorem plotterPlot_validates_witness :
    plotterPlot [] (PlotArg.item (PlotItem.str "a"))
        (PlotArg.item (PlotItem.str "b"))
        (PlotArg.list [PlotItem.str "c", PlotItem.str "d"])
      = Except.error Err.invalidArgument
    ∧ plotterPlot [] (PlotArg.item (PlotItem.str "t"))
        (PlotArg.list [PlotItem.str "u", PlotItem.param "v"]) PlotArg.noneArg
      = Except.ok [(["t"], ["u", "v"], [])] :=
  ⟨(plotterPlot_validates [] (PlotArg.item (PlotItem.str "a"))
      (PlotArg.item (PlotItem.str "b"))
      (PlotArg.list [PlotItem.str "c", PlotItem.str "d"])).1 (by decide),
   (plotterPlot_validates [] (PlotArg.item (PlotItem.str "t"))
      (PlotArg.list [PlotItem.str "u", PlotItem.param "v"]) PlotArg.noneArg).2
      (by decide)⟩

/-! ## Claim C8 -/

/-- Claim C8: if zero plot specifications are registered on the controller,
then `start` (context enter), `add_point`, and `stop` (context exit) are
all no-ops, no worker process is ever spawned, and `send_image()` returns
`None`. -/
theorem plotter_no_specs_noop (p : PlotterSt) (data : List Val)
    (h : p.plots = []) :
    plotterEnter p = p
    ∧ plotterExit p = p
    ∧ plotterAddPoint p data = p
    ∧ (plotterSendImage p).1 = p
    ∧ (plotterSendImage p).2 = none
    ∧ (plotterEnter p).procSpawned = p.procSpawned := by
  have hlen : p.plots.length = 0 := by rw [h]; rfl
  refine ⟨?_, ?_, ?_, ?_, ?_, ?_⟩ <;>
    simp [plotterEnter, plotterExit, plotterAddPoint, plotterSendImage, hlen]

/-- Witness for Claim C8 on a fresh `Plotter()`. -/
theorem plotter_no_specs_noop_witness :
    plotterEnter plotterInit = plotterInit
    ∧ plotterExit plotterInit = plotterInit
    ∧ plotterAddPoint plotterInit [Val.int 3] = plotterInit
    ∧ (plotterSendImage plotterInit).1 = plotterInit
    ∧ (plotterSendImage plotterInit).2 = none
    ∧ (plotterEnter plotterInit).procSpawned = plotterInit.procSpawned :=
  plotter_no_specs_noop plotterInit [Val.int 3] rfl

/-! ## Claim C9 -/

/-- Claim C9: when the renderer processes a point missing any column name
declared by a series, that series' buffered coordinates are left unchanged
and no error is raised (`procAddPoint` is total, modelling the `continue`),
and every series whose columns are all present in the point has the point's
values appended to its buffers. -/
theorem procAddPoint_series (st : ProcSt) (pt : RPoint) :
    ((procAddPoint st pt).lines.length = st.lines.length
      ∧ (procAddPoint st pt).meshes.length = st.meshes.length)
    ∧ (∀ (i : Nat) (l : LineS), st.lines[i]? = some l →
        ((pLookup pt l.x = none ∨ pLookup pt l.y = none) →
          (procAddPoint st pt).lines[i]? = some l)
        ∧ ∀ vx vy, pLookup pt l.x = some vx → pLookup pt l.y = some vy →
            (procAddPoint st pt).lines[i]?
              = some { l with xd := l.xd ++ [vx], yd := l.yd ++ [vy] })
    ∧ (∀ (i : Nat) (m : MeshS), st.meshes[i]? = some m →
        ((pLookup pt m.x = none ∨ pLookup pt m.y = none ∨ pLookup pt m.z = none) →
          (procAddPoint st pt).meshes[i]? = some m)
        ∧ ∀ vx vy vz, pLookup pt m.x = some vx → pLookup pt m.y = some vy →
            pLookup pt m.z = some vz →
            (procAddPoint st pt).meshes[i]? = some { m with
              xd := m.xd ++ [vx], yd := m.yd ++ [vy], zd := m.zd ++ [vz] }) := by
  refine ⟨⟨by simp [procAddPoint], by simp [procAddPoint]⟩, ?_, ?_⟩
  · intro i l hl
    constructor
    · intro hmiss
      simp only [procAddPoint, List.getElem?_map, hl, Option.map_some']
      rcases hmiss with hx | hy
      · rw [hx]
      · rw [hy]
        cases pLookup pt l.x <;> rfl
    · intro vx vy hx hy
      simp only [procAddPoint, List.getElem?_map, hl, Option.map_some', hx, hy]
  · intro i m hm
    constructor
    · intro hmiss
      simp only [procAddPoint, List.getElem?_map, hm, Option.map_some']
      rcases hmiss with hx | hy | hz
      · rw [hx]
      · rw [hy]
        cases pLookup pt m.x <;> rfl
      · rw [hz]
        cases pLookup pt m.x <;> cases pLookup pt m.y <;> rfl
    · intro vx vy vz hx hy hz
      simp only [procAddPoint, List.getElem?_map, hm, Option.map_some', hx, hy, hz]

/-- Witness for Claim C9: the point `{a: 1, b: 2}` updates the (a, b) line
series, leaves the (a, c) series untouched, and leaves the (a, b, c) mesh
untouched. -/
theorem procAddPoint_series_witness :
    (procAddPoint ⟨[⟨"a", "b", [], []⟩, ⟨"a", "c", [], []⟩],
        [⟨"a", "b", "c", [], [], []⟩]⟩
      [("a", Val.int 1), ("b", Val.int 2)]).lines[0]?
        = some ⟨"a", "b", [Val.int 1], [Val.int 2]⟩
    ∧ (procAddPoint ⟨[⟨"a", "b", [], []⟩, ⟨"a", "c", [], []⟩],
        [⟨"a", "b", "c", [], [], []⟩]⟩
      [("a", Val.int 1), ("b", Val.int 2)]).lines[1]?
        = some ⟨"a", "c", [], []⟩
    ∧ (procAddPoint ⟨[⟨"a", "b", [], []⟩, ⟨"a", "c", [], []⟩],
        [⟨"a", "b", "c", [], [], []⟩]⟩
      [("a", Val.int 1), ("b", Val.int 2)]).meshes[0]?
        = some ⟨"a", "b", "c", [], [], []⟩ :=
  ⟨((procAddPoint_series ⟨[⟨"a", "b", [], []⟩, ⟨"a", "c", [], []⟩],
        [⟨"a", "b", "c", [], [], []⟩]⟩
      [("a", Val.int 1), ("b", Val.int 2)]).2.1 0 ⟨"a", "b", [], []⟩
      (by decide)).2 (Val.int 1) (Val.int 2) (by decide) (by decide),
   ((procAddPoint_series ⟨[⟨"a", "b", [], []⟩, ⟨"a", "c", [], []⟩],
        [⟨"a", "b", "c", [], [], []⟩]⟩
      [("a", Val.int 1), ("b", Val.int 2)]).2.1 1 ⟨"a", "c", [], []⟩
      (by decide)).1 (by decide),
   ((procAddPoint_series ⟨[⟨"a", "b", [], []⟩, ⟨"a", "c", [], []⟩],
        [⟨"a", "b", "c", [], [], []⟩]⟩
      [("a", Val.int 1), ("b", Val.int 2)]).2.2 0 ⟨"a", "b", "c", [], [], []⟩
      (by decide)).1 (by decide)⟩

/-! ## Claim C10 -/

/-- Characterization of the message-scanning loop of `_plot_loop` on a
batch with no `START`: the figure is untouched during the scan, the
`ADD_POINT` payloads are collected in order, and the send flag records
whether a `SEND_IMAGE` was seen. -/
theorem loopFold_spec :
    ∀ (msgs : List RMsg) (acc : LoopAcc),
      msgs.all (fun m => ! m.isStart) = true →
      (msgs.foldl loopHandle acc).proc = acc.proc
      ∧ (msgs.foldl loopHandle acc).data
          = acc.data ++ msgs.filterMap RMsg.pointData
      ∧ (msgs.foldl loopHandle acc).send
          = (acc.send || msgs.any (fun m => m == RMsg.sendImage))
  | [], acc, _ => by simp
  | m :: msgs, acc, h => by
      have hm : m.isStart = false := by
        simpa using List.all_eq_true.mp h m (by simp)
      have hrest : msgs.all (fun m => ! m.isStart) = true := by
        rw [List.all_eq_true] at h ⊢
        exact fun x hx => h x (List.mem_cons_of_mem m hx)
      cases m with
      | start pl => simp [RMsg.isStart] at hm
      | stop =>
          obtain ⟨h1, h2, h3⟩ :=
            loopFold_spec msgs { acc with quitFlag := true } hrest
          have hne : (RMsg.stop == RMsg.sendImage) = false :=
            beq_eq_false_iff_ne.mpr (by intro hh; cases hh)
          refine ⟨?_, ?_, ?_⟩ <;>
            simp [List.foldl_cons, loopHandle, h1, h2, h3, RMsg.pointData, hne]
      | sendImage =>
          obtain ⟨h1, h2, h3⟩ := loopFold_spec msgs { acc with send := true } hrest
          refine ⟨?_, ?_, ?_⟩ <;>
            simp [List.foldl_cons, loopHandle, h1, h2, h3, RMsg.pointData]
      | addPoint d =>
          obtain ⟨h1, h2, h3⟩ :=
            loopFold_spec msgs { acc with data := acc.data ++ [d] } hrest
          have hne : (RMsg.addPoint d == RMsg.sendImage) = false :=
            beq_eq_false_iff_ne.mpr (by intro hh; cases hh)
          refine ⟨?_, ?_, ?_⟩ <;>
            simp [List.foldl_cons, loopHandle, h1, h2, h3, RMsg.pointData, hne]

/-- Claim C10: in one iteration of the renderer's event loop, all messages
drained in that iteration are coalesced: every `ADD_POINT` in the drained
batch is applied to the plot state before the `SEND_IMAGE` reply (if any)
is produced, so the returned image reflects every point message in the
batch, including point messages queued after the `SEND_IMAGE` request
within the same batch. Stated for batches without a `START` (the running
state). -/
theorem loopIter_coalesces (st : ProcSt) (msgs : List RMsg)
    (hsend : RMsg.sendImage ∈ msgs)
    (hnostart : msgs.all (fun m => ! m.isStart) = true) :
    (loopIter st msgs).1 = procAddPoints st (msgs.filterMap RMsg.pointData)
    ∧ (loopIter st msgs).2.1
        = some (procImage (procAddPoints st (msgs.filterMap RMsg.pointData))) := by
  obtain ⟨h1, h2, h3⟩ := loopFold_spec msgs ⟨st, [], false, false⟩ hnostart
  have hdata : (msgs.foldl loopHandle ⟨st, [], false, false⟩).data
      = msgs.filterMap RMsg.pointData := by
    rw [h2]; exact List.nil_append _
  have hsend2 : (msgs.foldl loopHandle ⟨st, [], false, false⟩).send = true := by
    rw [h3, Bool.false_or, List.any_eq_true]
    exact ⟨RMsg.sendImage, hsend, by simp⟩
  have hst2 :
      (if 0 < (msgs.foldl loopHandle ⟨st, [], false, false⟩).data.length then
          procAddPoints (msgs.foldl loopHandle ⟨st, [], false, false⟩).proc
            (msgs.foldl loopHandle ⟨st, [], false, false⟩).data
        else (msgs.foldl loopHandle ⟨st, [], false, false⟩).proc)
      = procAddPoints st (msgs.filterMap RMsg.pointData) := by
    rw [hdata, h1]
    by_cases hl : 0 < (msgs.filterMap RMsg.pointData).length
    · rw [if_pos hl]
    · have hnil : msgs.filterMap RMsg.pointData = [] :=
        List.length_eq_zero.mp (by omega)
      rw [if_neg hl, hnil]
      rfl
  simp [loopIter, hst2, hsend2]

/-- Witness for Claim C10: a batch with one point, then the image request,
then another point; the reply reflects both points. -/
theorem loopIter_coalesces_witness :
    (loopIter ⟨[⟨"t", "v", [], []⟩], []⟩
        [RMsg.addPoint [("t", Val.int 0), ("v", Val.int 1)], RMsg.sendImage,
          RMsg.addPoint [("t", Val.int 2), ("v", Val.int 3)]]).1
      = procAddPoints ⟨[⟨"t", "v", [], []⟩], []⟩
          (([RMsg.addPoint [("t", Val.int 0), ("v", Val.int 1)], RMsg.sendImage,
            RMsg.addPoint [("t", Val.int 2), ("v", Val.int 3)]] :
              List RMsg).filterMap RMsg.pointData)
    ∧ (loopIter ⟨[⟨"t", "v", [], []⟩], []⟩
        [RMsg.addPoint [("t", Val.int 0), ("v", Val.int 1)], RMsg.sendImage,
          RMsg.addPoint [("t", Val.int 2), ("v", Val.int 3)]]).2.1
      = some (procImage (procAddPoints ⟨[⟨"t", "v", [], []⟩], []⟩
          (([RMsg.addPoint [("t", Val.int 0), ("v", Val.int 1)], RMsg.sendImage,
            RMsg.addPoint [("t", Val.int 2), ("v", Val.int 3)]] :
              List RMsg).filterMap RMsg.pointData))) :=
  loopIter_coalesces ⟨[⟨"t", "v", [], []⟩], []⟩
    [RMsg.addPoint [("t", Val.int 0), ("v", Val.int 1)], RMsg.sendImage,
      RMsg.addPoint [("t", Val.int 2), ("v", Val.int 3)]] (by decide) (by decide)
